import Mathlib

set_option maxRecDepth 8000

/-!
Verification of the WHOIS response parser (`whoisdomain/doParse.py`).

Texts are embedded as lists of characters (`Str`); Python string methods
(`split`, `strip`, `lower`, `find`, slicing, substring tests) are embedded
as executable functions on `Str`.  Compiled regular expressions from the
external per-TLD pattern table are modelled by their `findall` functions
(`Str → List Str`); the three concrete patterns hard-coded in the source
(`domain:\s?([^\n]+)` and friends, and `Server Name:\s?(.+)`) are embedded
directly, following Python `re` semantics for those specific shapes.
Whitespace classes (`\s`, `str.strip()`) are modelled by
`Char.isWhitespace` — space, tab, CR, LF — which agrees with Python on
every character WHOIS responses contain.
-/

namespace Whois

/-- A Python string: a list of characters. -/
abbrev Str := List Char

/-- Python `str.lower()` (ASCII letters, which is all the parser relies on). -/
def pyLower (s : Str) : Str := s.map Char.toLower

/-- Strip characters satisfying `p` from both ends, like Python `str.strip(chars)`. -/
def pyStrip (p : Char → Bool) (s : Str) : Str :=
  ((s.dropWhile p).reverse.dropWhile p).reverse

/-- Python `str.strip()` with no argument: strip whitespace from both ends. -/
def pyStripWs (s : Str) : Str := pyStrip Char.isWhitespace s

/-- Python `sub in s`: substring containment. -/
def isSubOf (sub : Str) : Str → Bool
  | [] => sub.isEmpty
  | c :: cs => sub.isPrefixOf (c :: cs) || isSubOf sub cs

/-- Python `s.split("\n")`. -/
def splitNL : Str → List Str
  | [] => [[]]
  | c :: cs =>
    match splitNL cs with
    | [] => [[]]
    | h :: t => if c = '\n' then [] :: h :: t else (c :: h) :: t

/-- Python `"\n".join(lines)`. -/
def joinNL : List Str → Str
  | [] => []
  | [l] => l
  | l :: l2 :: ls => l ++ '\n' :: joinNL (l2 :: ls)

/-- Python `s.count("\n")`: number of newline characters. -/
def countNL (s : Str) : Nat := s.count '\n'

/-- Fuelled worker for `splitOnL`; fuel at least `length l` always suffices,
each step consumes at least one character. -/
def splitOnGo (sep : Str) : Nat → Str → List Str
  | _, [] => [[]]
  | 0, l => [l]
  | fuel + 1, c :: cs =>
    if sep.isPrefixOf (c :: cs) && !sep.isEmpty then
      [] :: splitOnGo sep fuel ((c :: cs).drop sep.length)
    else
      match splitOnGo sep fuel cs with
      | [] => [[c]]
      | h :: t => (c :: h) :: t

/-- Python `s.split(sep)` for a non-empty separator: non-overlapping,
left-to-right. -/
def splitOnL (sep l : Str) : List Str := splitOnGo sep l.length l

/-- Python `s.find(sub)`: index of the first occurrence, `-1` if absent. -/
def findSub (sub : Str) : Str → Int
  | [] => if sub.isEmpty then 0 else -1
  | c :: cs =>
    if sub.isPrefixOf (c :: cs) then 0
    else
      let r := findSub sub cs
      if r = -1 then -1 else r + 1

/-- Python `s[i:]` including negative-index semantics: a negative start counts
from the end and is clamped at zero. -/
def pySliceFrom (l : Str) (i : Int) : Str :=
  if 0 ≤ i then l.drop i.toNat else l.drop (l.length - (-i).toNat)

/-! ### The three hard-coded `key:` line patterns

`re.findall(r"<key>\s?([^\n]+)", text)` for a literal `<key>`: at each
position where the literal key matches, `\s?` greedily consumes one
whitespace character when the capture `[^\n]+` can still take at least one
character afterwards (backtracking otherwise), and the capture extends to
the end of the line.  Scanning is non-overlapping and resumes after each
match. -/

/-- Attempt `\s?([^\n]+)` at the current position; on success return the
capture and the remaining text after the match. -/
def keyLineTryMatch : Str → Option (Str × Str)
  | [] => none
  | c0 :: cs0 =>
    if c0.isWhitespace && !(cs0.takeWhile (fun c => c ≠ '\n')).isEmpty then
      some (cs0.takeWhile (fun c => c ≠ '\n'), cs0.dropWhile (fun c => c ≠ '\n'))
    else if c0 ≠ '\n' then
      some ((c0 :: cs0).takeWhile (fun c => c ≠ '\n'),
            (c0 :: cs0).dropWhile (fun c => c ≠ '\n'))
    else none

/-- Fuelled worker for `findallKeyLine`; each step consumes at least one
character, so fuel `length l` suffices. -/
def findallKeyLineGo (key : Str) : Nat → Str → List Str
  | _, [] => []
  | 0, _ => []
  | fuel + 1, c :: cs =>
    if key.isPrefixOf (c :: cs) then
      match keyLineTryMatch ((c :: cs).drop key.length) with
      | some (cap, rest) => cap :: findallKeyLineGo key fuel rest
      | none => findallKeyLineGo key fuel cs
    else findallKeyLineGo key fuel cs

/-- `re.findall(r"<key>\s?([^\n]+)", text)` for the literal `<key>`. -/
def findallKeyLine (key w : Str) : List Str := findallKeyLineGo key w.length w

/-! ### The `Server Name:` regex, used only as a boolean test -/

/-- Whether `\s?(.+)` matches at the given position (`.` excludes newlines;
`\s` includes them; the engine backtracks over the optional whitespace). -/
def serverNameAfterOk : Str → Bool
  | [] => false
  | c :: cs =>
    if c ≠ '\n' then true
    else
      match cs with
      | [] => false
      | c2 :: _ => c2 ≠ '\n'

/-- The lowercased literal part of the pattern `Server Name:\s?(.+)`. -/
def snPat : Str := "server name:".toList

/-- Truthiness of `re.findall(r"Server Name:\s?(.+)", w, re.IGNORECASE)`:
does the pattern match anywhere in `w`? -/
def serverNameMatch : Str → Bool
  | [] => false
  | c :: cs =>
    (snPat.isPrefixOf (pyLower (c :: cs)) && serverNameAfterOk ((c :: cs).drop snPat.length))
      || serverNameMatch cs

/-! ### Literal markers from the source -/

/-- Marker checked in `cleanupWhoisResponse` against each lowercased line. -/
def qeK : Str := "quota exceeded".toList

/-- Comment-line marker `%`. -/
def pctK : Str := "%".toList

/-- Redaction marker. -/
def redactedK : Str := "REDACTED FOR PRIVACY".toList

/-- RDDS boilerplate marker. -/
def rddsK : Str := "Please query the RDDS service of the Registrar of Record".toList

/-- Terms-of-use prefix marker. -/
def touK : Str := "Terms of Use:".toList

/-- The IANA referral marker, exact spacing from the source. -/
def ianaK : Str := "source:       IANA".toList

/-- The case-sensitive guard substring tested by `do_parse`. -/
def snGuardK : Str := "Server Name".toList

/-- Truncation anchor for the legacy Server-Name rewrite. -/
def domainNameK : Str := "Domain Name:".toList

/-- DNSSEC split marker. -/
def dnssecK : Str := "DNSSEC:".toList

/-- Accepted trimmed DNSSEC value. -/
def sdK : Str := "signedDelegation".toList

/-- Accepted trimmed DNSSEC value. -/
def yesK : Str := "yes".toList

/-- Substring looked for by the short-response error check. -/
def errK : Str := "error".toList

/-! ### Data model -/

/-- Modelled from the spec: caller-supplied configuration, read-only during a
parse — verbosity flag, lenient-mode flag (`simplistic`), keep-comment-lines
flag (`with_cleanup_results`) and keep-redacted-lines flag (`withRedacted`).
The class itself lives outside the parsing module; the field names are the
ones the parser reads. -/
structure ParameterContext where
  verbose : Bool
  simplistic : Bool
  with_cleanup_results : Bool
  withRedacted : Bool
deriving DecidableEq

/-- A value stored in the result dictionary: the `tld` string, the `DNSSEC`
boolean, or a list of extracted matches. -/
inductive DVal where
  | str : String → DVal
  | bool : Bool → DVal
  | strs : List Str → DVal
deriving DecidableEq

/-- A Python dictionary with string keys, as an insertion-ordered
association list with unique keys maintained by `dictSet`. -/
abbrev Dict := List (String × DVal)

/-- List of keys in insertion order. -/
def dictKeys (d : Dict) : List String := d.map Prod.fst

/-- Python `d[k] = v`: overwrite in place if the key exists, else append. -/
def dictSet (d : Dict) (k : String) (v : DVal) : Dict :=
  if k ∈ dictKeys d then
    d.map fun p => if p.1 = k then (k, v) else p
  else d ++ [(k, v)]

/-- Python `d.get(k)`: first (unique) binding of `k`. -/
def dictGet (d : Dict) (k : String) : Option DVal :=
  match d with
  | [] => none
  | (k1, v1) :: rest => if k1 = k then some v1 else dictGet rest k

/-- Modelled from the spec: the `Domain` result object (class outside the
parsing module) as used here — in lenient mode it carries an empty field
map, the response text and an explicit diagnostic marker. -/
structure Domain where
  data : Dict
  whoisStr : Str
  exeptionStr : Option String
deriving DecidableEq

/-- The two exceptions `do_parse` can raise. -/
inductive WhoisError where
  | WhoisQuotaExceeded : Str → WhoisError
  | FailedParsingWhoisOutput : Str → WhoisError
deriving DecidableEq

/-- The possible non-raising outcomes of `do_parse`: Python `None`, a
`Domain` object (lenient-mode marker result), or the raw result dictionary. -/
inductive ParseOutcome where
  | noneD : ParseOutcome
  | domain : Domain → ParseOutcome
  | dict : Dict → ParseOutcome
deriving DecidableEq

/-- A compiled pattern of the external table, modelled by its `findall`
function, or `none` for an explicitly absent pattern. -/
abbrev FieldPat := Option (Str → List Str)

/-- One TLD's entry of the external pattern table. -/
abbrev FieldMap := List (String × FieldPat)

/-- `TLD_RE.get(tldString, TLD_RE["com"])`: the table is external, modelled
as a partial map; claims about it assume the required `"com"` entry. -/
def resolveTable (table : String → Option FieldMap) (tld : String) : FieldMap :=
  match table tld with
  | some m => m
  | none => (table "com").getD []

/-! ### The parser (`WhoisParser` methods and module functions) -/

/-- Python `k.startswith("_")` on a field key, via the key's characters
(so concrete runs reduce in the kernel). -/
def keyIsMeta (k : String) : Bool := "_".toList.isPrefixOf k.toList

/-- The value stored for one field: `resultDict[k] = [""]` for an absent
pattern, else `v.findall(whoisStr) or [""]`. -/
def valOf (pat : FieldPat) (text : Str) : DVal :=
  match pat with
  | none => .strs [[]]
  | some f => .strs (if (f text).isEmpty then [[]] else f text)

/-- `WhoisParser._doExtractPattensFromWhoisString`: iterate the resolved
pattern map, skipping keys that start with the `_` meta prefix, storing
`valOf` for every other key. -/
def extractPattens (fm : FieldMap) (text : Str) (resultDict : Dict) : Dict :=
  match fm with
  | [] => resultDict
  | (k, v) :: rest =>
    if keyIsMeta k then extractPattens rest text resultDict
    else extractPattens rest text (dictSet resultDict k (valOf v text))

/-- The dedicated IANA pattern set of
`WhoisParser._doExtractPattensIanaFromWhoisString`, as (field, literal key)
pairs of the patterns `domain:\s?([^\n]+)`, `organisation:\s?([^\n]+)`,
`created:\s?([^\n]+)`. -/
def ianaFieldPats : List (String × Str) :=
  [("domain_name", "domain:".toList),
   ("registrar", "organisation:".toList),
   ("creation_date", "created:".toList)]

/-- `WhoisParser._doExtractPattensIanaFromWhoisString`: overlay the IANA
patterns, overwriting an entry only when `findall` is non-empty. -/
def extractIana (text : Str) (resultDict : Dict) : Dict :=
  ianaFieldPats.foldl
    (fun d kv =>
      let zz := findallKeyLine kv.2 text
      if zz.isEmpty then d else dictSet d kv.1 (.strs zz))
    resultDict

/-- `WhoisParser._doSourceIana`: split on the IANA marker; with more than two
parts, or two parts with non-whitespace tail, return the text after the
first occurrence and no result; otherwise build the generic extraction and
overlay the IANA patterns. -/
def doSourceIana (fm : FieldMap) (whoisStr : Str) (resultDict : Dict) :
    Str × Option Dict :=
  match splitOnL ianaK whoisStr with
  | _ :: p1 :: p2 :: rest => (List.intercalate ianaK (p1 :: p2 :: rest), none)
  | [_, p1] =>
    if pyStripWs p1 ≠ [] then (p1, none)
    else (whoisStr, some (extractIana whoisStr (extractPattens fm whoisStr resultDict)))
  | _ => (whoisStr, some (extractIana whoisStr (extractPattens fm whoisStr resultDict)))

/-- `WhoisParser._doIfServerNameLookForDomainName`: when the Server-Name
regex matches, truncate to `whoisStr[whoisStr.find("Domain Name:"):]`. -/
def doIfServerNameLookForDomainName (whoisStr : Str) : Str :=
  if serverNameMatch whoisStr then pySliceFrom whoisStr (findSub domainNameK whoisStr)
  else whoisStr

/-- `WhoisParser._doDnsSec`: split on `DNSSEC:`; when a second segment
exists, its first line, stripped, must be exactly `signedDelegation` or
`yes`. -/
def doDnsSec (whoisStr : Str) : Bool :=
  match splitOnL dnssecK whoisStr with
  | _ :: seg :: _ =>
    let whoisDnsSecStr := (splitNL seg).headD []
    pyStripWs whoisDnsSecStr = sdK || pyStripWs whoisDnsSecStr = yesK
  | _ => false

/-- `WhoisParser._handleShortResponse`: on the stripped, lowercased text,
first the none-strings, then the `error` substring (returning `None`), then
the quota strings, then the fallthrough — the latter two raising unless
`pc.simplistic`. -/
def handleShortResponse (noneStrings quotaStrings : List Str)
    (pc : ParameterContext) (whoisStr : Str) : Except WhoisError (Option Domain) :=
  let s := pyLower (pyStripWs whoisStr)
  if noneStrings.any (fun i => isSubOf i s) then .ok none
  else if isSubOf errK s then .ok none
  else if quotaStrings.any (fun i => isSubOf i s) then
    if pc.simplistic then
      .ok (some ⟨[], whoisStr, some "WhoisQuotaExceeded"⟩)
    else .error (.WhoisQuotaExceeded whoisStr)
  else if pc.simplistic then
    .ok (some ⟨[], whoisStr, some "FailedParsingWhoisOutput"⟩)
  else .error (.FailedParsingWhoisOutput whoisStr)

/-- The per-line quota test of `cleanupWhoisResponse`. -/
def lineHasQuota (line : Str) : Bool := isSubOf qeK (pyLower line)

/-- Whether `cleanupWhoisResponse` keeps a (non-quota) line: the conjunction
of the four drop tests, in source order. -/
def keepLine (with_cleanup_results withRedacted : Bool) (line : Str) : Bool :=
  !(with_cleanup_results && pctK.isPrefixOf line) &&
  !(!withRedacted && isSubOf redactedK line) &&
  !(isSubOf rddsK line) &&
  !(touK.isPrefixOf line)

/-- The line loop of `cleanupWhoisResponse` (the `skipFromHere` machinery is
dead code: it sits under `if 0:`).  `none` models the quota raise; kept
lines are stripped of carriage returns at both ends. -/
def cleanupLoop (with_cleanup_results withRedacted : Bool) : List Str → Option (List Str)
  | [] => some []
  | line :: rest =>
    if lineHasQuota line then none
    else if with_cleanup_results && pctK.isPrefixOf line then
      cleanupLoop with_cleanup_results withRedacted rest
    else if !withRedacted && isSubOf redactedK line then
      cleanupLoop with_cleanup_results withRedacted rest
    else if isSubOf rddsK line then
      cleanupLoop with_cleanup_results withRedacted rest
    else if touK.isPrefixOf line then
      cleanupLoop with_cleanup_results withRedacted rest
    else
      (cleanupLoop with_cleanup_results withRedacted rest).map
        (fun t => pyStrip (fun c => c == '\r') line :: t)

/-- `cleanupWhoisResponse`: split on newlines, run the line loop (raising
`WhoisQuotaExceeded` with the original text when any line carries the quota
marker), and rejoin with newlines. -/
def cleanupWhoisResponse (verbose with_cleanup_results withRedacted : Bool)
    (whoisStr : Str) : Except WhoisError Str :=
  match cleanupLoop with_cleanup_results withRedacted (splitNL whoisStr) with
  | none => .error (.WhoisQuotaExceeded whoisStr)
  | some tmp2 => .ok (joinNL tmp2)

/-- Wrap `_handleShortResponse`'s `Optional[Domain]` as a `ParseOutcome`. -/
def shortMap (r : Option Domain) : ParseOutcome :=
  match r with
  | none => .noneD
  | some d => .domain d

/-- The non-short tail of `do_parse` (lines 280-301): build the initial
result dictionary with `tld` and `DNSSEC`, run the IANA handling when the
marker is present (returning its dictionary when it produces one), then run
the Server-Name rewrite — note that the guard tests the possibly rewritten
local text while the rewrite and the final extraction use the parser's
stored text, which the IANA branch never updates. -/
def extractionPhase (fm : FieldMap) (w : Str) (tldString : String) : ParseOutcome :=
  let resultDict : Dict := [("tld", .str tldString), ("DNSSEC", .bool (doDnsSec w))]
  match (if isSubOf ianaK w then doSourceIana fm w resultDict else (w, none)) with
  | (_, some d) => .dict d
  | (wLoc, none) =>
    let selfStr := if isSubOf snGuardK wLoc then doIfServerNameLookForDomainName w else w
    .dict (extractPattens fm selfStr resultDict)

/-- `do_parse`: normalize (may raise), short-circuit responses with fewer
than five newlines through `_handleShortResponse`, otherwise run the
extraction phase. -/
def do_parse (table : String → Option FieldMap) (noneStrings quotaStrings : List Str)
    (whoisStr : Str) (tldString : String) (dList : List String)
    (pc : ParameterContext) : Except WhoisError ParseOutcome :=
  match cleanupWhoisResponse pc.verbose pc.with_cleanup_results pc.withRedacted whoisStr with
  | .error e => .error e
  | .ok w =>
    if countNL w < 5 then
      (handleShortResponse noneStrings quotaStrings pc w).map shortMap
    else .ok (extractionPhase (resolveTable table tldString) w tldString)

/-- Modelled from the spec: the externally supplied "domain not registered"
phrase set (`NoneStrings`), exemplified in the spec as "no match" and
"not found". -/
def NoneStrings : List Str := ["no match".toList, "not found".toList]

/-- Modelled from the spec: the externally supplied quota phrase set
(`QuotaStrings`); the spec names "quota exceeded" as the quota signal. -/
def QuotaStrings : List Str := [qeK]

/-- Convenience accessor for stating concrete results: the field `k` of a
dictionary outcome. -/
def resultField (r : Except WhoisError ParseOutcome) (k : String) : Option DVal :=
  match r with
  | .ok (.dict d) => dictGet d k
  | _ => none

/-- Definition following claim C7's words: the DNSSEC flag is true iff the
text contains `DNSSEC:` and the first line following the first occurrence of
the marker, trimmed, is exactly `signedDelegation` or `yes`. -/
def dnssecClaimSpec (w : Str) : Bool :=
  if isSubOf dnssecK w then
    let i := findSub dnssecK w
    let after := if 0 ≤ i then w.drop (i.toNat + dnssecK.length) else w
    let firstLine := (splitNL after).headD []
    pyStripWs firstLine = sdK || pyStripWs firstLine = yesK
  else false

/-- Definition following amended claim C7: the flag is computed on the
second segment of the split on `DNSSEC:` — the text between the first
occurrence of the marker and the next occurrence or newline. -/
def dnssecSplitSpec (w : Str) : Bool :=
  if (splitOnL dnssecK w).length ≥ 2 then
    let seg := (splitOnL dnssecK w).getD 1 []
    let firstLine := (splitNL seg).headD []
    pyStripWs firstLine = sdK || pyStripWs firstLine = yesK
  else false

/-- Decidable equality of outcomes, so concrete runs can be checked by
`decide`. -/
instance instDecEqExcept {ε α : Type} [DecidableEq ε] [DecidableEq α] :
    DecidableEq (Except ε α) := fun x y =>
  match x, y with
  | .error a, .error b =>
    if h : a = b then isTrue (by rw [h]) else isFalse (by simp [h])
  | .ok a, .ok b =>
    if h : a = b then isTrue (by rw [h]) else isFalse (by simp [h])
  | .error _, .ok _ => isFalse (by simp)
  | .ok _, .error _ => isFalse (by simp)

/-! ### Concrete configurations, tables and inputs used by the theorems -/

/-- Strict configuration: all flags off. -/
def pcStrict : ParameterContext := ⟨false, false, false, false⟩

/-- Lenient configuration: `simplistic` on. -/
def pcLenient : ParameterContext := ⟨false, true, false, false⟩

/-- A minimal table whose every entry is the empty field map. -/
def tableEmpty : String → Option FieldMap := fun _ => some []

/-- A table whose `com` entry extracts a single `refer` field with a
`refer:` line pattern. -/
def tableRefer : String → Option FieldMap :=
  fun s => if s = "com" then some [("refer", some (findallKeyLine "refer:".toList))] else none

/-- A table whose `com` entry has the three IANA overlay field names, each
with an absent pattern. -/
def tableIana : String → Option FieldMap :=
  fun s =>
    if s = "com" then some [("domain_name", none), ("registrar", none), ("creation_date", none)]
    else none

/-- A table exercising fallback, a meta key and an absent pattern. -/
def tableC2 : String → Option FieldMap :=
  fun s =>
    if s = "com" then
      some [("f1", some (findallKeyLine "f1:".toList)), ("_server", none), ("f2", none)]
    else none

/-- C1 counterexample input: two lines, one containing "quota exceeded"
case-insensitively. -/
def w1 : Str := "Your Quota Exceeded for today\nbye".toList

/-- C1 witness input. -/
def w1w : Str := "hello\nQUOTA EXCEEDED".toList

/-- C3 counterexample input: a short response containing "error" and no
none-string. -/
def w3 : Str := "fatal error at server\nx".toList

/-- C3 witness input. -/
def w3w : Str := "lookup error\nz".toList

/-- C4 counterexample input: exactly five newline-separated lines. -/
def w4 : Str := "No match for domain\nbb\ncc\ndd\nee".toList

/-- C4 witness input: seven lines. -/
def w4w : Str := "aa\nbb\ncc\ndd\nee\nff\ngg".toList

/-- C5 failing input: the IANA marker occurs once followed by non-whitespace,
and a `refer:` line sits before the marker. -/
def w5 : Str :=
  "refer: whois.example\naa\nbb\ncc\ndd\nsource:       IANA\nMore: stuff".toList

/-- C6 input: the IANA marker occurs once, followed only by whitespace, with
the claim's `domain:` and `organisation:` lines (and a `created:` line)
before it. -/
def w6 : Str :=
  ("domain:       example.com\norganisation:  Internet Assigned Numbers Authority\n" ++
   "created:      1992-01-01\nxx\nyy\nsource:       IANA\n  ").toList

/-- C7 counterexample input: a second `DNSSEC:` occurrence on the same line
as the first. -/
def w7 : Str := "aa\nbb\ncc\ndd\nee\nDNSSEC: yes DNSSEC: x\nff".toList

/-- C8 counterexample input: an upper-case `SERVER NAME:` banner. -/
def w8 : Str :=
  "refer: whois.example\nSERVER NAME: WHOIS.EXAMPLE\naa\nbb\ncc\nDomain Name: foo.example".toList

/-- C8 witness input: spec scenario 3 shape, with a `refer:` line in the
banner part. -/
def w8w : Str :=
  "refer: whois.example\nServer Name:   WHOIS.EXAMPLE\naa\nbb\ncc\nDomain Name: foo.example".toList

/-- C9 witness input: normalized text (no comments, no redaction, no CRs,
no quota marker). -/
def w9 : Str := "Domain Name: foo.example\nStatus: ok".toList

/-- C10 witness input: matches the Server-Name pattern, contains no
`Domain Name:`. -/
def w10 : Str := "Server Name: x\nabc".toList

/-- C10 witness field map. -/
def fm10 : FieldMap := [("domain_name", some (findallKeyLine domainNameK))]

/-! ### General lemmas: newline splitting and joining -/

theorem splitNL_ne_nil (w : Str) : splitNL w ≠ [] := by
  cases w with
  | nil => simp [splitNL]
  | cons c cs =>
    simp only [splitNL]
    cases splitNL cs with
    | nil => simp
    | cons h t => by_cases hc : c = '\n' <;> simp [hc]

theorem mem_splitNL_no_nl {w l : Str} (hm : l ∈ splitNL w) : '\n' ∉ l := by
  induction w generalizing l with
  | nil => simp [splitNL] at hm; simp [hm]
  | cons c cs ih =>
    simp only [splitNL] at hm
    cases hsp : splitNL cs with
    | nil => exact absurd hsp (splitNL_ne_nil cs)
    | cons h t =>
      rw [hsp] at hm
      by_cases hc : c = '\n'
      · simp only [hc, if_pos rfl] at hm
        rcases List.mem_cons.mp hm with h1 | h1
        · simp [h1]
        · exact ih (hsp ▸ h1)
      · simp only [if_neg hc] at hm
        rcases List.mem_cons.mp hm with h1 | h1
        · subst h1
          intro hmem
          rcases List.mem_cons.mp hmem with h2 | h2
          · exact hc h2.symm
          · exact ih (hsp ▸ List.mem_cons_self h t) h2
        · exact ih (hsp ▸ List.mem_cons_of_mem h h1)

theorem mem_of_mem_splitNL {w l : Str} {c : Char} (hm : l ∈ splitNL w) (hc : c ∈ l) :
    c ∈ w := by
  induction w generalizing l with
  | nil => simp [splitNL] at hm; subst hm; simp at hc
  | cons a cs ih =>
    simp only [splitNL] at hm
    cases hsp : splitNL cs with
    | nil => exact absurd hsp (splitNL_ne_nil cs)
    | cons h t =>
      rw [hsp] at hm
      by_cases ha : a = '\n'
      · simp only [ha, if_pos rfl] at hm
        rcases List.mem_cons.mp hm with h1 | h1
        · subst h1; simp at hc
        · exact List.mem_cons_of_mem a (ih (hsp ▸ h1) hc)
      · simp only [if_neg ha] at hm
        rcases List.mem_cons.mp hm with h1 | h1
        · subst h1
          rcases List.mem_cons.mp hc with h2 | h2
          · exact h2 ▸ List.mem_cons_self a cs
          · exact List.mem_cons_of_mem a (ih (hsp ▸ List.mem_cons_self h t) h2)
        · exact List.mem_cons_of_mem a (ih (hsp ▸ List.mem_cons_of_mem h h1) hc)

theorem splitNL_single {l : Str} (h : '\n' ∉ l) : splitNL l = [l] := by
  induction l with
  | nil => simp [splitNL]
  | cons c cs ih =>
    have hc : c ≠ '\n' := fun hc => h (hc ▸ List.mem_cons_self c cs)
    have hcs : '\n' ∉ cs := fun hm => h (List.mem_cons_of_mem c hm)
    simp only [splitNL, ih hcs]
    simp [hc]

theorem splitNL_append {l w : Str} (h : '\n' ∉ l) :
    splitNL (l ++ '\n' :: w) = l :: splitNL w := by
  induction l with
  | nil =>
    simp only [List.nil_append, splitNL]
    cases hsp : splitNL w with
    | nil => exact absurd hsp (splitNL_ne_nil w)
    | cons a t => simp
  | cons c cs ih =>
    have hc : c ≠ '\n' := fun hc => h (hc ▸ List.mem_cons_self c cs)
    have hcs : '\n' ∉ cs := fun hm => h (List.mem_cons_of_mem c hm)
    simp only [List.cons_append, splitNL, List.append_eq]
    rw [ih hcs]
    simp [hc]

theorem splitNL_joinNL {ls : List Str} (hne : ls ≠ [])
    (h : ∀ l ∈ ls, '\n' ∉ l) : splitNL (joinNL ls) = ls := by
  induction ls with
  | nil => exact absurd rfl hne
  | cons l rest ih =>
    cases rest with
    | nil => exact splitNL_single (h l (List.mem_cons_self l []))
    | cons l2 t =>
      simp only [joinNL]
      rw [splitNL_append (h l (List.mem_cons_self l (l2 :: t)))]
      rw [ih (by simp) (fun x hx => h x (List.mem_cons_of_mem l hx))]

theorem splitNL_length (w : Str) : (splitNL w).length = countNL w + 1 := by
  induction w with
  | nil => simp [splitNL, countNL]
  | cons c cs ih =>
    simp only [splitNL]
    cases hsp : splitNL cs with
    | nil => exact absurd hsp (splitNL_ne_nil cs)
    | cons h t =>
      rw [hsp] at ih
      by_cases hc : c = '\n' <;>
        simp [hc, countNL, List.count_cons] at ih ⊢ <;> omega

/-! ### General lemmas: stripping -/

theorem dropWhile_eq_self_of {p : Char → Bool} {l : Str}
    (h : ∀ c ∈ l, p c = false) : l.dropWhile p = l := by
  cases l with
  | nil => rfl
  | cons c cs => simp [List.dropWhile, h c (List.mem_cons_self c cs)]

theorem pyStrip_eq_self {p : Char → Bool} {l : Str}
    (h : ∀ c ∈ l, p c = false) : pyStrip p l = l := by
  unfold pyStrip
  rw [dropWhile_eq_self_of h]
  rw [dropWhile_eq_self_of (fun c hc => h c (List.mem_reverse.mp hc))]
  exact List.reverse_reverse l

/-! ### General lemmas: the cleanup loop -/

theorem cleanupLoop_none_of_quota {a b : Bool} {ls : List Str} {l : Str}
    (hm : l ∈ ls) (hq : lineHasQuota l = true) :
    cleanupLoop a b ls = none := by
  induction ls with
  | nil => simp at hm
  | cons x rest ih =>
    rcases List.mem_cons.mp hm with h1 | h1
    · subst h1; simp [cleanupLoop, hq]
    · simp only [cleanupLoop]
      by_cases hx : lineHasQuota x
      · simp [hx]
      · simp only [hx, if_false, Bool.false_eq_true]
        split
        · exact ih h1
        · split
          · exact ih h1
          · split
            · exact ih h1
            · split
              · exact ih h1
              · rw [ih h1]; rfl

theorem cleanupLoop_eq_filter {a b : Bool} {ls : List Str}
    (hq : ∀ l ∈ ls, lineHasQuota l = false) :
    cleanupLoop a b ls =
      some ((ls.filter (keepLine a b)).map (pyStrip (fun c => c == '\r'))) := by
  induction ls with
  | nil => simp [cleanupLoop]
  | cons x rest ih =>
    have hx : lineHasQuota x = false := hq x (List.mem_cons_self x rest)
    have ihr := ih (fun l hl => hq l (List.mem_cons_of_mem x hl))
    simp only [cleanupLoop, hx, Bool.false_eq_true, if_false]
    by_cases h1 : a && pctK.isPrefixOf x
    · simp [h1, ihr, keepLine, List.filter_cons]
    · by_cases h2 : !b && isSubOf redactedK x
      · simp [h1, h2, ihr, keepLine, List.filter_cons]
      · by_cases h3 : isSubOf rddsK x
        · simp [h1, h2, h3, ihr, keepLine, List.filter_cons]
        · by_cases h4 : touK.isPrefixOf x
          · simp [h1, h2, h3, h4, ihr, keepLine, List.filter_cons]
          · simp [h1, h2, h3, h4, ihr, keepLine, List.filter_cons]

/-! ### General lemmas: dictionaries -/

theorem dictGet_map_set_self {k : String} {v : DVal} :
    ∀ {d : Dict}, k ∈ dictKeys d →
      dictGet (d.map fun p => if p.1 = k then (k, v) else p) k = some v := by
  intro d
  induction d with
  | nil => intro h; simp [dictKeys] at h
  | cons p rest ih =>
    intro hmem
    by_cases hp : p.1 = k
    · show dictGet ((if p.1 = k then (k, v) else p) :: _) k = some v
      rw [if_pos hp]
      simp [dictGet]
    · have hr : k ∈ dictKeys rest := by
        rcases List.mem_cons.mp hmem with h1 | h1
        · exact absurd h1.symm hp
        · exact h1
      show dictGet ((if p.1 = k then (k, v) else p) :: _) k = some v
      rw [if_neg hp]
      simp only [dictGet, if_neg hp]
      exact ih hr

theorem dictGet_map_set_ne {k k' : String} {v : DVal} (h : k' ≠ k) :
    ∀ {d : Dict},
      dictGet (d.map fun p => if p.1 = k then (k, v) else p) k' = dictGet d k' := by
  intro d
  induction d with
  | nil => simp [dictGet]
  | cons p rest ih =>
    by_cases hp : p.1 = k
    · show dictGet ((if p.1 = k then (k, v) else p) :: _) k' = _
      rw [if_pos hp]
      have hkk : k ≠ k' := fun hh => h hh.symm
      have hpk : p.1 ≠ k' := fun hh => h (hh ▸ hp)
      simp only [dictGet, if_neg hkk, if_neg hpk]
      exact ih
    · show dictGet ((if p.1 = k then (k, v) else p) :: _) k' = _
      rw [if_neg hp]
      by_cases hq : p.1 = k' <;> simp only [dictGet, hq, if_pos, if_neg, ih]

theorem dictGet_append_single_ne {d : Dict} {k k' : String} {v : DVal} (h : k' ≠ k) :
    dictGet (d ++ [(k, v)]) k' = dictGet d k' := by
  induction d with
  | nil => simp [dictGet, h.symm]
  | cons p rest ih =>
    by_cases hq : p.1 = k' <;> simp [List.cons_append, dictGet, hq, ih]

theorem dictGet_append_single_self {d : Dict} {k : String} {v : DVal}
    (h : k ∉ dictKeys d) : dictGet (d ++ [(k, v)]) k = some v := by
  induction d with
  | nil => simp [dictGet]
  | cons p rest ih =>
    have hp : p.1 ≠ k := fun hp => h (hp ▸ List.mem_cons_self p.1 _)
    simp only [List.cons_append, dictGet, if_neg hp]
    exact ih (fun hmem => h (List.mem_cons_of_mem p.1 hmem))

theorem dictGet_dictSet_self {d : Dict} {k : String} (v : DVal) :
    dictGet (dictSet d k v) k = some v := by
  simp only [dictSet]
  by_cases h : k ∈ dictKeys d
  · rw [if_pos h]; exact dictGet_map_set_self h
  · rw [if_neg h]; exact dictGet_append_single_self h

theorem dictGet_dictSet_ne {d : Dict} {k k' : String} (v : DVal) (h : k' ≠ k) :
    dictGet (dictSet d k v) k' = dictGet d k' := by
  simp only [dictSet]
  by_cases hc : k ∈ dictKeys d
  · rw [if_pos hc]; exact dictGet_map_set_ne h
  · rw [if_neg hc]; exact dictGet_append_single_ne h

theorem dictKeys_dictSet (d : Dict) (k : String) (v : DVal) :
    dictKeys (dictSet d k v) =
      if k ∈ dictKeys d then dictKeys d else dictKeys d ++ [k] := by
  simp only [dictSet]
  by_cases h : k ∈ dictKeys d
  · rw [if_pos h, if_pos h]
    simp only [dictKeys, List.map_map]
    refine List.map_congr_left ?_
    intro p _
    by_cases hp : p.1 = k <;> simp [hp]
  · rw [if_neg h, if_neg h]
    simp [dictKeys]

/-! ### General lemmas: the field extraction loop -/

theorem extract_get_not_mem {fm : FieldMap} {text : Str} {d : Dict} {k : String}
    (h : k ∉ fm.map Prod.fst) :
    dictGet (extractPattens fm text d) k = dictGet d k := by
  induction fm generalizing d with
  | nil => rfl
  | cons p rest ih =>
    have hk : p.1 ≠ k := fun hp => h (hp ▸ List.mem_map_of_mem Prod.fst (List.mem_cons_self p rest))
    have hr : k ∉ rest.map Prod.fst := fun hm => h (by simp [List.mem_map] at hm ⊢; tauto)
    obtain ⟨k1, v1⟩ := p
    simp only [extractPattens]
    by_cases hm : keyIsMeta k1
    · simp only [hm, if_true]
      exact ih hr
    · simp only [hm, if_false, Bool.false_eq_true]
      rw [ih hr]
      exact dictGet_dictSet_ne _ (fun hh => hk hh.symm)

theorem extract_get_mem {fm : FieldMap} {text : Str} {d : Dict} {k : String}
    {pat : FieldPat} (hnd : (fm.map Prod.fst).Nodup) (hmem : (k, pat) ∈ fm)
    (hmeta : keyIsMeta k = false) :
    dictGet (extractPattens fm text d) k = some (valOf pat text) := by
  induction fm generalizing d with
  | nil => simp at hmem
  | cons p rest ih =>
    obtain ⟨k1, v1⟩ := p
    have hnd1 : k1 ∉ rest.map Prod.fst := (List.nodup_cons.mp hnd).1
    have hndr : (rest.map Prod.fst).Nodup := (List.nodup_cons.mp hnd).2
    rcases List.mem_cons.mp hmem with h1 | h1
    · obtain ⟨hk, hv⟩ := Prod.mk.injEq .. ▸ h1.symm
      subst hk hv
      simp only [extractPattens, hmeta, if_false, Bool.false_eq_true]
      rw [extract_get_not_mem hnd1]
      exact dictGet_dictSet_self _
    · simp only [extractPattens]
      by_cases hm : keyIsMeta k1
      · simp only [hm, if_true]
        exact ih hndr h1
      · simp only [hm, if_false, Bool.false_eq_true]
        exact ih hndr h1

theorem extract_keys {fm : FieldMap} {text : Str} {d : Dict}
    (hnd : (fm.map Prod.fst).Nodup)
    (hdisj : ∀ k ∈ dictKeys d, k ∉ fm.map Prod.fst) :
    dictKeys (extractPattens fm text d) =
      dictKeys d ++ (fm.map Prod.fst).filter (fun k => !(keyIsMeta k)) := by
  induction fm generalizing d with
  | nil => simp [extractPattens]
  | cons p rest ih =>
    obtain ⟨k1, v1⟩ := p
    have hnd1 : k1 ∉ rest.map Prod.fst := (List.nodup_cons.mp hnd).1
    have hndr : (rest.map Prod.fst).Nodup := (List.nodup_cons.mp hnd).2
    simp only [extractPattens, List.map_cons, List.filter_cons]
    by_cases hm : keyIsMeta k1
    · simp only [hm, if_true, Bool.not_true, Bool.false_eq_true, if_false]
      exact ih hndr (fun k hk => fun hmem =>
        hdisj k hk (List.mem_cons_of_mem k1 hmem))
    · have hk1d : k1 ∉ dictKeys d := fun hmem =>
        hdisj k1 hmem (List.mem_cons_self k1 _)
      have hkeys : dictKeys (dictSet d k1 (valOf v1 text)) = dictKeys d ++ [k1] := by
        rw [dictKeys_dictSet, if_neg hk1d]
      simp only [hm, Bool.false_eq_true, if_false, Bool.not_false, if_true]
      rw [ih hndr, hkeys]
      · simp
      · intro k hk hmem
        rw [hkeys] at hk
        rcases List.mem_append.mp hk with h1 | h1
        · exact hdisj k h1 (List.mem_cons_of_mem k1 hmem)
        · have : k = k1 := by simpa using h1
          exact hnd1 (this ▸ hmem)

/-! ### General lemmas: find and slicing -/

theorem findSub_neg_of_not_sub {sub l : Str} (h : isSubOf sub l = false) :
    findSub sub l = -1 := by
  induction l with
  | nil =>
    simp only [isSubOf] at h
    simp [findSub, h]
  | cons c cs ih =>
    simp only [isSubOf, Bool.or_eq_false_iff] at h
    simp [findSub, h.1, ih h.2]

theorem drop_length_sub_one {l : Str} (h : l ≠ []) :
    l.drop (l.length - 1) = [l.getLast h] := by
  induction l with
  | nil => exact absurd rfl h
  | cons a t ih =>
    cases t with
    | nil => simp
    | cons b t2 =>
      have hne : b :: t2 ≠ [] := by simp
      rw [List.getLast_cons hne]
      have hlen : (a :: b :: t2).length - 1 = (b :: t2).length := by simp
      rw [hlen]
      have : (a :: b :: t2).drop (b :: t2).length = (b :: t2).drop ((b :: t2).length - 1) := by
        simp
      rw [this, ih hne]

/-! ### Helper lemmas about the parser components -/

theorem dnssec_spec_eq (w : Str) : dnssecSplitSpec w = doDnsSec w := by
  unfold dnssecSplitSpec doDnsSec
  cases hsp : splitOnL dnssecK w with
  | nil => simp
  | cons a t =>
    cases t with
    | nil => simp
    | cons b t2 => simp

theorem extractIana_get_ne (w : Str) (d : Dict) (k : String)
    (h1 : k ≠ "domain_name") (h2 : k ≠ "registrar") (h3 : k ≠ "creation_date") :
    dictGet (extractIana w d) k = dictGet d k := by
  simp only [extractIana, ianaFieldPats, List.foldl_cons, List.foldl_nil]
  split <;> split <;> split <;>
    simp only [dictGet_dictSet_ne _ h1, dictGet_dictSet_ne _ h2, dictGet_dictSet_ne _ h3]

theorem dictGet_init_dnssec (tld : String) (b : Bool) :
    dictGet [("tld", DVal.str tld), ("DNSSEC", DVal.bool b)] "DNSSEC" =
      some (DVal.bool b) := by
  simp [dictGet]

theorem extractionPhase_dnssec (fm : FieldMap) (w : Str) (tld : String)
    (hk : "DNSSEC" ∉ fm.map Prod.fst) :
    ∃ d, extractionPhase fm w tld = .dict d ∧
      dictGet d "DNSSEC" = some (.bool (doDnsSec w)) := by
  have hpres : ∀ t : Str,
      dictGet (extractPattens fm t [("tld", .str tld), ("DNSSEC", .bool (doDnsSec w))]) "DNSSEC"
        = some (.bool (doDnsSec w)) := by
    intro t
    rw [extract_get_not_mem hk, dictGet_init_dnssec]
  have hiana :
      dictGet (extractIana w (extractPattens fm w
          [("tld", .str tld), ("DNSSEC", .bool (doDnsSec w))])) "DNSSEC"
        = some (.bool (doDnsSec w)) := by
    rw [extractIana_get_ne _ _ _ (by decide) (by decide) (by decide)]
    exact hpres w
  by_cases hi : isSubOf ianaK w
  · cases hsp : splitOnL ianaK w with
    | nil =>
      exact ⟨_, by simp [extractionPhase, doSourceIana, hi, hsp], hiana⟩
    | cons p0 t =>
      cases t with
      | nil =>
        exact ⟨_, by simp [extractionPhase, doSourceIana, hi, hsp], hiana⟩
      | cons p1 t2 =>
        cases t2 with
        | nil =>
          by_cases hws : pyStripWs p1 ≠ []
          · exact ⟨extractPattens fm
                (if isSubOf snGuardK p1 = true then doIfServerNameLookForDomainName w else w)
                [("tld", DVal.str tld), ("DNSSEC", DVal.bool (doDnsSec w))],
              by simp [extractionPhase, doSourceIana, hi, hsp, hws], hpres _⟩
          · exact ⟨_, by simp [extractionPhase, doSourceIana, hi, hsp, hws], hiana⟩
        | cons p2 t3 =>
          exact ⟨extractPattens fm
              (if isSubOf snGuardK (List.intercalate ianaK (p1 :: p2 :: t3)) = true then
                doIfServerNameLookForDomainName w else w)
              [("tld", DVal.str tld), ("DNSSEC", DVal.bool (doDnsSec w))],
            by simp [extractionPhase, doSourceIana, hi, hsp], hpres _⟩
  · exact ⟨extractPattens fm
        (if isSubOf snGuardK w = true then doIfServerNameLookForDomainName w else w)
        [("tld", DVal.str tld), ("DNSSEC", DVal.bool (doDnsSec w))],
      by simp [extractionPhase, hi], hpres _⟩

/-! ### Claim C1 -/

/-- Claim C1, counterexample: on a two-line input containing "quota
exceeded" (case-insensitively), `do_parse` raises `WhoisQuotaExceeded` even
in lenient mode (`pc.simplistic = true`), instead of returning a `Domain`
value carrying the diagnostic marker: the quota check of
`cleanupWhoisResponse` runs before lenient handling and never consults the
flag. -/
theorem c1_counterexample :
    do_parse tableEmpty NoneStrings QuotaStrings w1 "com" [] pcLenient
      = .error (.WhoisQuotaExceeded w1) := by decide

/-- Claim C1 (amended): for every input with a line containing "quota
exceeded" (case-insensitive), `do_parse` raises `WhoisQuotaExceeded`
regardless of the lenient flag: normalization detects the quota marker
before short-response classification, and its raise does not consult
`pc.simplistic`. -/
theorem c1_quota_always_raises (table : String → Option FieldMap)
    (ns qs : List Str) (w : Str) (tld : String) (dl : List String)
    (pc : ParameterContext) (h : (splitNL w).any lineHasQuota = true) :
    do_parse table ns qs w tld dl pc = .error (.WhoisQuotaExceeded w) := by
  rcases List.any_eq_true.mp h with ⟨l, hl, hq⟩
  have hloop :
      cleanupLoop pc.with_cleanup_results pc.withRedacted (splitNL w) = none :=
    cleanupLoop_none_of_quota hl hq
  simp [do_parse, cleanupWhoisResponse, hloop]

/-- Witness for the amended C1 theorem at a concrete two-line input, in
strict mode. -/
theorem c1_quota_always_raises_witness :
    do_parse tableEmpty NoneStrings QuotaStrings w1w "com" [] pcStrict
      = .error (.WhoisQuotaExceeded w1w) :=
  c1_quota_always_raises tableEmpty NoneStrings QuotaStrings w1w "com" [] pcStrict
    (by decide)

/-! ### Claim C3 -/

/-- Claim C3, counterexample: a short response containing "error" and no
"domain not registered" phrase makes `do_parse` return Python `None` (the
NoSuchDomain outcome) in strict mode — it does not raise
`FailedParsingWhoisOutput`. -/
theorem c3_counterexample :
    do_parse tableEmpty NoneStrings QuotaStrings w3 "com" [] pcStrict
      = .ok .noneD := by decide

/-- Claim C3 (amended): for every short response whose stripped lowercased
text contains "error" and no phrase of the none-strings set, short-response
classification returns `None` — the same outcome as the "domain not
registered" phrases — rather than raising. -/
theorem c3_error_returns_none (ns qs : List Str) (pc : ParameterContext)
    (w : Str)
    (h1 : ∀ p ∈ ns, isSubOf p (pyLower (pyStripWs w)) = false)
    (h2 : isSubOf errK (pyLower (pyStripWs w)) = true) :
    handleShortResponse ns qs pc w = .ok none := by
  have hany : ns.any (fun i => isSubOf i (pyLower (pyStripWs w))) = false := by
    rw [List.any_eq_false]
    intro p hp
    simp [h1 p hp]
  simp [handleShortResponse, hany, h2]

/-- Witness for the amended C3 theorem at a concrete short input. -/
theorem c3_error_returns_none_witness :
    handleShortResponse NoneStrings QuotaStrings pcStrict w3w = .ok none :=
  c3_error_returns_none NoneStrings QuotaStrings pcStrict w3w (by decide) (by decide)

/-! ### Claim C4 -/

/-- Claim C4, counterexample: an input of exactly five newline-separated
lines (four newline characters) is routed to short-response classification
(here yielding the `None` outcome through a none-string), although the
claim says five or more lines proceed to field extraction: the code
compares the newline count, not the line count, with five. -/
theorem c4_counterexample :
    (splitNL w4).length = 5 ∧
    cleanupWhoisResponse false false false w4 = .ok w4 ∧
    do_parse tableEmpty NoneStrings QuotaStrings w4 "com" [] pcStrict
      = .ok .noneD := by decide

/-- Claim C4 (amended): `do_parse` routes a normalized response to
short-response classification exactly when its newline count is below five,
i.e. when its count of newline-separated lines is below six; responses with
six or more lines proceed to DNSSEC computation and field extraction. -/
theorem c4_short_routing (table : String → Option FieldMap)
    (ns qs : List Str) (w : Str) (tld : String) (dl : List String)
    (pc : ParameterContext) (wc : Str)
    (hc : cleanupWhoisResponse pc.verbose pc.with_cleanup_results pc.withRedacted w
      = .ok wc) :
    ((splitNL wc).length < 6 →
      do_parse table ns qs w tld dl pc = (handleShortResponse ns qs pc wc).map shortMap) ∧
    (6 ≤ (splitNL wc).length →
      do_parse table ns qs w tld dl pc
        = .ok (extractionPhase (resolveTable table tld) wc tld)) := by
  have hlen := splitNL_length wc
  refine ⟨fun h => ?_, fun h => ?_⟩
  · have hlt : countNL wc < 5 := by omega
    simp [do_parse, hc, hlt]
  · have hge : ¬ countNL wc < 5 := by omega
    simp [do_parse, hc, hge]

/-- Witness for the amended C4 theorem: a seven-line input goes to the
extraction phase. -/
theorem c4_short_routing_witness :
    do_parse tableEmpty NoneStrings QuotaStrings w4w "com" [] pcStrict
      = .ok (extractionPhase (resolveTable tableEmpty "com") w4w "com") :=
  (c4_short_routing tableEmpty NoneStrings QuotaStrings w4w "com" [] pcStrict w4w
    (by decide)).2 (by decide)

/-! ### Claim C2 -/

/-- Claim C2: field extraction resolves the pattern map as `table[tld]`
with `table["com"]` as the fallback; the extracted map has exactly the
non-meta keys of the resolved map, in order; and each such key holds the
full match list of its pattern, or exactly `[""]` when the pattern is
absent or finds nothing — never an empty list. -/
theorem c2_extract_contract (table : String → Option FieldMap) (cm : FieldMap)
    (tld : String) (text : Str)
    (hcom : table "com" = some cm)
    (hnd : ((resolveTable table tld).map Prod.fst).Nodup) :
    resolveTable table tld = (table tld).getD cm ∧
    dictKeys (extractPattens (resolveTable table tld) text []) =
      ((resolveTable table tld).map Prod.fst).filter (fun k => !(keyIsMeta k)) ∧
    ∀ k pat, (k, pat) ∈ resolveTable table tld → keyIsMeta k = false →
      dictGet (extractPattens (resolveTable table tld) text []) k
          = some (valOf pat text) ∧
        valOf pat text ≠ .strs [] := by
  refine ⟨?_, ?_, ?_⟩
  · unfold resolveTable
    cases h : table tld <;> simp [h, hcom]
  · exact extract_keys hnd (by simp [dictKeys])
  · intro k pat hmem hmeta
    refine ⟨extract_get_mem hnd hmem hmeta, ?_⟩
    cases pat with
    | none => simp [valOf]
    | some f =>
      by_cases hfe : (f text).isEmpty
      · simp [valOf, hfe]
      · have : f text ≠ [] := by
          intro hh
          rw [hh] at hfe
          exact hfe rfl
        simp [valOf, hfe, this]

/-- Witness for the C2 theorem: a missing TLD entry falls back to `com`;
the meta key `_server` is dropped; the patternless key `f2` holds `[""]`. -/
theorem c2_extract_contract_witness :
    dictKeys (extractPattens (resolveTable tableC2 "xx") "f1: hello".toList [])
      = ["f1", "f2"] ∧
    dictGet (extractPattens (resolveTable tableC2 "xx") "f1: hello".toList []) "f2"
      = some (.strs [[]]) := by
  have h := c2_extract_contract tableC2
    [("f1", some (findallKeyLine "f1:".toList)), ("_server", none), ("f2", none)]
    "xx" "f1: hello".toList rfl (by decide)
  refine ⟨h.2.1.trans (by decide), ?_⟩
  exact (h.2.2 "f2" none (by simp [resolveTable, tableC2]) (by decide)).1

/-! ### Claim C5 -/

/-- Claim C5 (code bug): with the IANA marker occurring once followed by
non-whitespace, `_doSourceIana` computes the text after the marker and
`do_parse` binds it to a local variable, but the parser's stored text is
never updated, so generic extraction still runs on the original normalized
text: at this input the `refer` field is extracted from the part before the
marker, while extraction over the rewritten substring (what the claim
describes) would yield `[""]`. -/
theorem c5_iana_rewrite_discarded :
    resultField (do_parse tableRefer NoneStrings QuotaStrings w5 "com" [] pcStrict) "refer"
      = some (.strs ["whois.example".toList]) ∧
    dictGet (extractPattens (resolveTable tableRefer "com") "\nMore: stuff".toList
        [("tld", .str "com"), ("DNSSEC", .bool (doDnsSec w5))]) "refer"
      = some (.strs [[]]) := by decide

/-! ### Claim C6 -/

/-- Claim C6, counterexample: at the claim's own example input the IANA
overlay stores the raw capture of `domain:\s?([^\n]+)` — the pattern's
single optional whitespace consumes one space and the capture keeps the
remaining six leading spaces — so `domain_name` is
`["      example.com"]`, not `["example.com"]` (and `registrar` keeps one
leading space); trimming happens outside this module. -/
theorem c6_counterexample :
    resultField (do_parse tableIana NoneStrings QuotaStrings w6 "com" [] pcStrict)
        "domain_name" = some (.strs ["      example.com".toList]) ∧
    resultField (do_parse tableIana NoneStrings QuotaStrings w6 "com" [] pcStrict)
        "registrar" = some (.strs [" Internet Assigned Numbers Authority".toList]) ∧
    "      example.com".toList ≠ "example.com".toList := by decide

/-- Claim C6 (amended): when the marker occurs exactly once with only
whitespace after it, `do_parse` returns the ordinary field extraction
overlaid with the IANA-specific patterns (overwriting only where a pattern
matches, which `extractIana` does by construction), skipping further
generic extraction; the overlaid values are the raw captures, retaining any
whitespace beyond the single optional whitespace of the pattern. -/
theorem c6_iana_overlay (table : String → Option FieldMap) (ns qs : List Str)
    (w : Str) (tld : String) (dl : List String) (pc : ParameterContext)
    (wc p0 p1 : Str)
    (hc : cleanupWhoisResponse pc.verbose pc.with_cleanup_results pc.withRedacted w
      = .ok wc)
    (h5 : ¬ countNL wc < 5)
    (hin : isSubOf ianaK wc = true)
    (hsp : splitOnL ianaK wc = [p0, p1])
    (hws : pyStripWs p1 = []) :
    do_parse table ns qs w tld dl pc
      = .ok (.dict (extractIana wc (extractPattens (resolveTable table tld) wc
          [("tld", .str tld), ("DNSSEC", .bool (doDnsSec wc))]))) := by
  simp [do_parse, hc, h5, extractionPhase, doSourceIana, hin, hsp, hws]

/-- Witness for the amended C6 theorem at the example input. -/
theorem c6_iana_overlay_witness :
    do_parse tableIana NoneStrings QuotaStrings w6 "com" [] pcStrict
      = .ok (.dict (extractIana w6 (extractPattens (resolveTable tableIana "com") w6
          [("tld", .str "com"), ("DNSSEC", .bool (doDnsSec w6))]))) :=
  c6_iana_overlay tableIana NoneStrings QuotaStrings w6 "com" [] pcStrict w6
    ("domain:       example.com\norganisation:  Internet Assigned Numbers Authority\ncreated:      1992-01-01\nxx\nyy\n".toList)
    ("\n  ".toList)
    (by decide) (by decide) (by decide) (by decide) (by decide)

/-! ### Claim C7 -/

/-- Claim C7, counterexample: with a second `DNSSEC:` on the same line, the
code's split takes the segment between the two markers (`" yes "`, which
strips to `"yes"`) and reports the flag true, while the first line
following the first marker occurrence trims to `"yes DNSSEC: x"`, so the
claim's characterization says false. -/
theorem c7_counterexample :
    resultField (do_parse tableEmpty NoneStrings QuotaStrings w7 "com" [] pcStrict)
        "DNSSEC" = some (.bool true) ∧
    dnssecClaimSpec w7 = false ∧
    cleanupWhoisResponse false false false w7 = .ok w7 := by decide

/-- Claim C7 (amended): for every non-short input (whose resolved pattern
map does not itself define a `DNSSEC` field), the result dictionary's
`DNSSEC` entry equals the split-based flag: true iff splitting on
`DNSSEC:` yields a second segment whose first line — the text between the
first marker occurrence and the next occurrence or newline — strips to
exactly `signedDelegation` or `yes`. -/
theorem c7_dnssec_flag (table : String → Option FieldMap) (ns qs : List Str)
    (w : Str) (tld : String) (dl : List String) (pc : ParameterContext) (wc : Str)
    (hc : cleanupWhoisResponse pc.verbose pc.with_cleanup_results pc.withRedacted w
      = .ok wc)
    (h5 : ¬ countNL wc < 5)
    (hk : "DNSSEC" ∉ (resolveTable table tld).map Prod.fst) :
    ∃ d, do_parse table ns qs w tld dl pc = .ok (.dict d) ∧
      dictGet d "DNSSEC" = some (.bool (dnssecSplitSpec wc)) := by
  rcases extractionPhase_dnssec (resolveTable table tld) wc tld hk with ⟨d, hd1, hd2⟩
  refine ⟨d, ?_, ?_⟩
  · simp [do_parse, hc, h5, hd1]
  · rw [dnssec_spec_eq]
    exact hd2

/-- Witness for the amended C7 theorem at the concrete input. -/
theorem c7_dnssec_flag_witness :
    ∃ d, do_parse tableEmpty NoneStrings QuotaStrings w7 "com" [] pcStrict
        = .ok (.dict d) ∧
      dictGet d "DNSSEC" = some (.bool (dnssecSplitSpec w7)) :=
  c7_dnssec_flag tableEmpty NoneStrings QuotaStrings w7 "com" [] pcStrict w7
    (by decide) (by decide) (by decide)

/-! ### Claim C8 -/

/-- Claim C8, counterexample: an input containing `SERVER NAME:` only in
upper case contains "Server Name:" case-insensitively, yet `do_parse`
performs no truncation — its guard is the case-sensitive substring test
`"Server Name" in whoisStr` — so the `refer` field is extracted from the
banner part before `Domain Name:`, while extraction over the truncated
substring (what the claim describes) would yield `[""]`. -/
theorem c8_counterexample :
    isSubOf (pyLower "Server Name:".toList) (pyLower w8) = true ∧
    resultField (do_parse tableRefer NoneStrings QuotaStrings w8 "com" [] pcStrict)
        "refer" = some (.strs ["whois.example".toList]) ∧
    dictGet (extractPattens (resolveTable tableRefer "com")
        (pySliceFrom w8 (findSub domainNameK w8))
        [("tld", .str "com"), ("DNSSEC", .bool (doDnsSec w8))]) "refer"
      = some (.strs [[]]) := by decide

/-- Claim C8 (amended): for every non-short input without the IANA marker
that contains the case-sensitive substring `Server Name` and matches the
case-insensitive pattern `Server Name:\s?(.+)` (and contains
`Domain Name:`), generic extraction runs against the suffix of the
normalized text starting at the first occurrence of `Domain Name:`. -/
theorem c8_server_name_truncation (table : String → Option FieldMap)
    (ns qs : List Str) (w : Str) (tld : String) (dl : List String)
    (pc : ParameterContext) (wc : Str)
    (hc : cleanupWhoisResponse pc.verbose pc.with_cleanup_results pc.withRedacted w
      = .ok wc)
    (h5 : ¬ countNL wc < 5)
    (hni : isSubOf ianaK wc = false)
    (hsg : isSubOf snGuardK wc = true)
    (hrx : serverNameMatch wc = true)
    (hdn : isSubOf domainNameK wc = true) :
    do_parse table ns qs w tld dl pc
      = .ok (.dict (extractPattens (resolveTable table tld)
          (pySliceFrom wc (findSub domainNameK wc))
          [("tld", .str tld), ("DNSSEC", .bool (doDnsSec wc))])) := by
  simp [do_parse, hc, h5, extractionPhase, hni, hsg, doIfServerNameLookForDomainName, hrx]

/-- Witness for the amended C8 theorem at a scenario-3-shaped input. -/
theorem c8_server_name_truncation_witness :
    do_parse tableRefer NoneStrings QuotaStrings w8w "com" [] pcStrict
      = .ok (.dict (extractPattens (resolveTable tableRefer "com")
          (pySliceFrom w8w (findSub domainNameK w8w))
          [("tld", .str "com"), ("DNSSEC", .bool (doDnsSec w8w))])) :=
  c8_server_name_truncation tableRefer NoneStrings QuotaStrings w8w "com" [] pcStrict w8w
    (by decide) (by decide) (by decide) (by decide) (by decide) (by decide)

/-! ### Claim C9 -/

/-- Claim C9: normalization is idempotent on already-normalized text — for
any flag settings, if `x` has no comment lines, no redaction markers, no
carriage returns and no quota marker, then normalizing the normalization of
`x` returns it unchanged. -/
theorem c9_cleanup_idem (verbose wcr wr : Bool) (x y : Str)
    (hq : ∀ l ∈ splitNL x, lineHasQuota l = false)
    (hcm : ∀ l ∈ splitNL x, pctK.isPrefixOf l = false)
    (hrd : ∀ l ∈ splitNL x, isSubOf redactedK l = false)
    (hcr : '\r' ∉ x)
    (hy : cleanupWhoisResponse verbose wcr wr x = .ok y) :
    cleanupWhoisResponse verbose wcr wr y = .ok y := by
  have hloop := cleanupLoop_eq_filter (a := wcr) (b := wr) hq
  have hcrl : ∀ l ∈ splitNL x, ∀ c ∈ l, (c == '\r') = false := by
    intro l hl c hc
    have hcx : c ∈ x := mem_of_mem_splitNL hl hc
    have : c ≠ '\r' := fun h => hcr (h ▸ hcx)
    simp [this]
  have hmap : ((splitNL x).filter (keepLine wcr wr)).map
      (pyStrip (fun c => c == '\r')) = (splitNL x).filter (keepLine wcr wr) := by
    conv_rhs => rw [← List.map_id ((splitNL x).filter (keepLine wcr wr))]
    refine List.map_congr_left ?_
    intro l hl
    exact pyStrip_eq_self (hcrl l (List.mem_of_mem_filter hl))
  rw [hmap] at hloop
  have hyv : y = joinNL ((splitNL x).filter (keepLine wcr wr)) := by
    simp [cleanupWhoisResponse, hloop] at hy
    exact hy.symm
  subst hyv
  rcases hk : (splitNL x).filter (keepLine wcr wr) with _ | ⟨k0, ktail⟩
  · cases verbose <;> cases wcr <;> cases wr <;> decide
  · have hsub : ∀ l ∈ k0 :: ktail, l ∈ splitNL x := by
      intro l hl
      exact List.mem_of_mem_filter (hk ▸ hl)
    have hkeep : ∀ l ∈ k0 :: ktail, keepLine wcr wr l = true := by
      intro l hl
      exact List.of_mem_filter (hk ▸ hl)
    have hnl : ∀ l ∈ k0 :: ktail, '\n' ∉ l := fun l hl =>
      mem_splitNL_no_nl (hsub l hl)
    have hsplit : splitNL (joinNL (k0 :: ktail)) = k0 :: ktail :=
      splitNL_joinNL (by simp) hnl
    have hq2 : ∀ l ∈ k0 :: ktail, lineHasQuota l = false := fun l hl =>
      hq l (hsub l hl)
    have hloop2 := cleanupLoop_eq_filter (a := wcr) (b := wr) hq2
    have hff : (k0 :: ktail).filter (keepLine wcr wr) = k0 :: ktail :=
      List.filter_eq_self.mpr hkeep
    have hmap2 : ((k0 :: ktail).filter (keepLine wcr wr)).map
        (pyStrip (fun c => c == '\r')) = (k0 :: ktail).filter (keepLine wcr wr) := by
      conv_rhs => rw [← List.map_id ((k0 :: ktail).filter (keepLine wcr wr))]
      refine List.map_congr_left ?_
      intro l hl
      exact pyStrip_eq_self (hcrl l (hsub l (List.mem_of_mem_filter hl)))
    rw [hmap2, hff] at hloop2
    simp [cleanupWhoisResponse, hsplit, hloop2]

/-- Witness for the C9 theorem: a concrete normalized two-line text is a
fixed point of normalization. -/
theorem c9_cleanup_idem_witness :
    cleanupWhoisResponse false true false w9 = .ok w9 :=
  c9_cleanup_idem false true false w9 w9 (by decide) (by decide) (by decide)
    (by decide) (by decide)

/-! ### Claim C10 -/

/-- Claim C10: when the Server-Name pattern matches but the text contains
no `Domain Name:`, `str.find` returns `-1` and the slice `whoisStr[-1:]`
keeps exactly the final character, so the rewrite returns a one-character
string and subsequent field extraction over it stores the placeholder
`[""]` for every field whose pattern finds nothing in that one-character
text (which holds for the external table's patterns, each anchored on a
multi-character literal). -/
theorem c10_truncation_to_last_char (w : Str) (fm : FieldMap) (k : String)
    (pat : FieldPat) (h3 : w ≠ [])
    (h1 : serverNameMatch w = true)
    (h2 : isSubOf domainNameK w = false)
    (h4 : (k, pat) ∈ fm) (h5 : keyIsMeta k = false)
    (h6 : ∀ f, pat = some f → f [w.getLast h3] = [])
    (h7 : (fm.map Prod.fst).Nodup) :
    doIfServerNameLookForDomainName w = [w.getLast h3] ∧
    dictGet (extractPattens fm (doIfServerNameLookForDomainName w) []) k
      = some (.strs [[]]) := by
  have hw : doIfServerNameLookForDomainName w = [w.getLast h3] := by
    unfold doIfServerNameLookForDomainName
    rw [if_pos h1, findSub_neg_of_not_sub h2]
    unfold pySliceFrom
    rw [if_neg (by decide : ¬ ((0:Int) ≤ -1))]
    have h9 : ((-(-1 : Int)).toNat) = 1 := by decide
    rw [h9]
    exact drop_length_sub_one h3
  refine ⟨hw, ?_⟩
  rw [hw, extract_get_mem h7 h4 h5]
  cases pat with
  | none => rfl
  | some f => simp [valOf, h6 f rfl]

/-- Witness for the C10 theorem at a concrete input and field map. -/
theorem c10_truncation_to_last_char_witness :
    doIfServerNameLookForDomainName w10 = ['c'] ∧
    dictGet (extractPattens fm10 (doIfServerNameLookForDomainName w10) []) "domain_name"
      = some (.strs [[]]) := by
  have h := c10_truncation_to_last_char w10 fm10 "domain_name"
    (some (findallKeyLine domainNameK)) (by decide) (by decide) (by decide)
    (by simp [fm10]) (by decide)
    (fun f hf => by cases hf; decide) (by decide)
  exact ⟨h.1.trans (by decide), h.2⟩

end Whois
